import Mathlib

/-!
Shallow embedding of the customer-retention ETL pipeline
(src/ETL/DBLostClients.py, src/ETL/etl_pipeline/{preprocessing,analytics,
data_io,visualization}.py, src/ETL/data_preparation.py) and proofs about it.

Conventions of the embedding:
* a pandas scalar that may be NaN/None is an `Option` value;
* machine floats that hold exact tabular quantities are modelled as `ℚ`;
* a DataFrame is a list of rows (structures or tuples), kept in order;
* logging is an explicit list of log entries threaded through functions;
* a raised exception is the `Except.error` branch.
-/

namespace ETL

/-! ### preprocessing.py -/

/-- Model of the word characters matched by the regex character class
`[\wА-Яа-яІіЇїЄєҐґ']` of `normalize_teacher` (restricted to the ASCII
alphanumerics, the underscore, the apostrophe and the Cyrillic block that the
data uses; every character of this set is a non-whitespace character, which is
all that the proofs rely on). -/
def wordChar (c : Char) : Bool :=
  c.isAlphanum || c == '_' || c == '\'' ||
    (decide (0x400 ≤ c.toNat) && decide (c.toNat ≤ 0x4FF))

/-- Model of Python `str.strip()`: drop whitespace from both ends. -/
def stripChars (s : List Char) : List Char :=
  ((s.dropWhile Char.isWhitespace).reverse.dropWhile Char.isWhitespace).reverse

/-- Model of `re.match(r"^([\w…']+\s[\w…']+)", name)`: the first group matches a
maximal nonempty run of word characters, one whitespace character, and a second
maximal nonempty run of word characters, anchored at the start.  (The greedy
matcher never backtracks here: shortening the first run would require `\s` to
match a word character, which is impossible since word characters are not
whitespace.) -/
def matchTwoWords (t : List Char) : Option (List Char) :=
  match t.dropWhile wordChar with
  | [] => none
  | c :: rest =>
    if t.takeWhile wordChar ≠ [] ∧ c.isWhitespace then
      if rest.takeWhile wordChar ≠ [] then
        some (t.takeWhile wordChar ++ c :: rest.takeWhile wordChar)
      else none
    else none

/-- Embedding of `preprocessing.normalize_teacher`: strip the name, then return
the first two whitespace-separated words if the regex matches, else the stripped
name. -/
def normalize_teacher (name : String) : String :=
  match matchTwoWords (stripChars name.data) with
  | some m => String.mk m
  | none => String.mk (stripChars name.data)

/-- The age bucketing of `pd.cut(df[age], bins=[6, 8, 10, 13, 17],
labels=["A", "B", "C", "D"], include_lowest=True)`: intervals
[6,8], (8,10], (10,13], (13,17]; values outside are mapped to NaN. -/
def cutAge (age : ℚ) : Option String :=
  if 6 ≤ age ∧ age ≤ 8 then some "A"
  else if 8 < age ∧ age ≤ 10 then some "B"
  else if 10 < age ∧ age ≤ 13 then some "C"
  else if 13 < age ∧ age ≤ 17 then some "D"
  else none

/-- One output row of `categorize_age`: the age column, the added
`age_group` column, and the added `out_of_range_age` flag. -/
structure AgeRow where
  age : Option ℚ
  age_group : Option String
  out_of_range_age : Bool
deriving DecidableEq, Repr

/-- Row-level body of `preprocessing.categorize_age`: `age_group` is the
`pd.cut` bucket (NaN ages give NaN buckets) and
`out_of_range_age = age_group.isna() & age.notna()`. -/
def categorizeAgeRow (age : Option ℚ) : AgeRow :=
  let group := age.bind cutAge
  { age := age, age_group := group, out_of_range_age := group.isNone && age.isSome }

/-- Embedding of `preprocessing.categorize_age` over the age column. -/
def categorize_age (ages : List (Option ℚ)) : List AgeRow :=
  ages.map categorizeAgeRow

/-! Characterizations of the age buckets. -/

lemma cutAge_eq_A {a : ℚ} : cutAge a = some "A" ↔ 6 ≤ a ∧ a ≤ 8 := by
  unfold cutAge
  split_ifs with h1 h2 h3 h4 <;> simp_all

lemma cutAge_eq_B {a : ℚ} : cutAge a = some "B" ↔ 8 < a ∧ a ≤ 10 := by
  unfold cutAge
  split_ifs with h1 h2 h3 h4 <;> simp_all

lemma cutAge_eq_C {a : ℚ} : cutAge a = some "C" ↔ 10 < a ∧ a ≤ 13 := by
  unfold cutAge
  split_ifs with h1 h2 h3 h4 <;> simp_all
  intro h
  linarith [h1.2]

lemma cutAge_eq_D {a : ℚ} : cutAge a = some "D" ↔ 13 < a ∧ a ≤ 17 := by
  unfold cutAge
  split_ifs with h1 h2 h3 h4 <;> simp_all
  · intro h; linarith [h1.2]
  · intro h; linarith [h2.2]

lemma cutAge_eq_none {a : ℚ} : cutAge a = none ↔ a < 6 ∨ 17 < a := by
  unfold cutAge
  split_ifs with h1 h2 h3 h4 <;> simp_all
  · linarith [h1.2]
  · exact ⟨by linarith [h2.1], by linarith [h2.2]⟩
  · exact ⟨by linarith [h3.1], by linarith [h3.2]⟩
  · linarith [h4.1]
  · rcases lt_or_le a 6 with h | h
    · exact Or.inl h
    · exact Or.inr (h4 (h3 (h2 (h1 h))))

/-- C9: for every row produced by `categorize_age`, a non-null age receives
age_group "A" exactly on the closed interval [6,8], "B" exactly on (8,10],
"C" exactly on (10,13], "D" exactly on (13,17]; a non-null age outside [6,17]
receives a null age_group and is flagged `out_of_range_age`, and rows with a
null age are not flagged. -/
theorem c9_categorize_age_buckets (ages : List (Option ℚ)) (r : AgeRow)
    (hr : r ∈ categorize_age ages) :
    (∀ a : ℚ, r.age = some a →
      ((r.age_group = some "A" ↔ 6 ≤ a ∧ a ≤ 8) ∧
       (r.age_group = some "B" ↔ 8 < a ∧ a ≤ 10) ∧
       (r.age_group = some "C" ↔ 10 < a ∧ a ≤ 13) ∧
       (r.age_group = some "D" ↔ 13 < a ∧ a ≤ 17) ∧
       ((a < 6 ∨ 17 < a) → r.age_group = none ∧ r.out_of_range_age = true))) ∧
    (r.age = none → r.out_of_range_age = false) := by
  rcases List.mem_map.mp hr with ⟨age, _, rfl⟩
  constructor
  · rintro a ha
    cases age with
    | none => simp [categorizeAgeRow] at ha
    | some b =>
      simp only [categorizeAgeRow, Option.some_bind] at ha ⊢
      obtain rfl : b = a := by simpa using ha
      refine ⟨cutAge_eq_A, cutAge_eq_B, cutAge_eq_C, cutAge_eq_D, fun h => ?_⟩
      rw [cutAge_eq_none.mpr h]
      simp
  · intro h
    cases age with
    | none => simp [categorizeAgeRow]
    | some b => simp [categorizeAgeRow] at h

/-- Witness for C9 at the concrete age 7: the produced row is bucketed "A". -/
theorem c9_categorize_age_witness :
    ({ age := some 7, age_group := some "A", out_of_range_age := false } : AgeRow)
      ∈ categorize_age [some 7] ∧
    (({ age := some 7, age_group := some "A", out_of_range_age := false } : AgeRow).age_group
      = some "A" ↔ 6 ≤ (7 : ℚ) ∧ (7 : ℚ) ≤ 8) :=
  ⟨by decide,
   ((c9_categorize_age_buckets [some 7]
      { age := some 7, age_group := some "A", out_of_range_age := false }
      (by decide)).1 7 rfl).1⟩

/-! Facts about `normalize_teacher` (claim C10). -/

lemma wordChar_not_whitespace {c : Char} (h : wordChar c = true) :
    c.isWhitespace = false := by
  have hws : c.isWhitespace = true → (((c = ' ' ∨ c = '\t') ∨ c = '\x0d') ∨ c = '\n') := by
    intro hw
    simpa [Char.isWhitespace] using hw
  cases hv : c.isWhitespace with
  | false => rfl
  | true =>
    rcases hws hv with ((rfl | rfl) | rfl) | rfl <;> exact absurd h (by decide)

lemma whitespace_not_wordChar {c : Char} (h : c.isWhitespace = true) :
    wordChar c = false := by
  cases hv : wordChar c with
  | false => rfl
  | true => rw [wordChar_not_whitespace hv] at h; exact absurd h (by simp)

/-- The first element surviving `dropWhile p` fails `p`. -/
lemma dropWhile_head_false {p : Char → Bool} {c : Char} {t : List Char} :
    ∀ {l : List Char}, l.dropWhile p = c :: t → p c = false := by
  intro l
  induction l with
  | nil => intro h; cases h
  | cons a l ih =>
    intro h
    rw [List.dropWhile_cons] at h
    by_cases ha : p a = true
    · rw [if_pos ha] at h; exact ih h
    · rw [if_neg ha] at h
      cases h
      simpa using ha

lemma dropWhile_dropWhile (p : Char → Bool) (l : List Char) :
    (l.dropWhile p).dropWhile p = l.dropWhile p := by
  cases h : l.dropWhile p with
  | nil => simp
  | cons c t =>
    rw [List.dropWhile_cons, dropWhile_head_false h]
    simp

lemma dropWhile_eq_self_of_head {p : Char → Bool} {l : List Char}
    (h : ∀ c ∈ l.head?, p c = false) : l.dropWhile p = l := by
  cases l with
  | nil => rfl
  | cons a t =>
    have : p a = false := h a (by simp)
    rw [List.dropWhile_cons, this]
    simp

/-- Every character that `head?` of the stripped list yields is non-whitespace. -/
lemma head?_stripChars (s : List Char) :
    ∀ c ∈ (stripChars s).head?, c.isWhitespace = false := by
  intro c hc
  unfold stripChars at hc
  rw [List.head?_reverse] at hc
  generalize hA : s.dropWhile Char.isWhitespace = A at hc
  obtain ⟨u, hu⟩ :=
    List.dropWhile_suffix (l := A.reverse) Char.isWhitespace
  have hBne : A.reverse.dropWhile Char.isWhitespace ≠ [] := by
    intro hnil
    rw [hnil] at hc
    simp at hc
  have h1 : (A.reverse.dropWhile Char.isWhitespace).getLast? = A.head? := by
    conv_rhs => rw [← List.getLast?_reverse A, ← hu]
    rw [List.getLast?_append, List.getLast?_eq_getLast _ hBne]
    simp
  rw [h1] at hc
  cases hA2 : A with
  | nil => rw [hA2] at hc; simp at hc
  | cons a t =>
    rw [hA2] at hc
    simp only [List.head?_cons, Option.mem_def, Option.some.injEq] at hc
    subst hc
    exact dropWhile_head_false (hA.trans hA2)

/-- Every character that `getLast?` of the stripped list yields is non-whitespace. -/
lemma getLast?_stripChars (s : List Char) :
    ∀ c ∈ (stripChars s).getLast?, c.isWhitespace = false := by
  intro c hc
  unfold stripChars at hc
  rw [List.getLast?_reverse] at hc
  cases hB : (s.dropWhile Char.isWhitespace).reverse.dropWhile Char.isWhitespace with
  | nil => rw [hB] at hc; simp at hc
  | cons a t =>
    rw [hB] at hc
    simp only [List.head?_cons, Option.mem_def, Option.some.injEq] at hc
    subst hc
    exact dropWhile_head_false hB

/-- A list with non-whitespace ends is unchanged by `stripChars`. -/
lemma stripChars_eq_self {t : List Char}
    (h1 : ∀ c ∈ t.head?, c.isWhitespace = false)
    (h2 : ∀ c ∈ t.getLast?, c.isWhitespace = false) : stripChars t = t := by
  unfold stripChars
  rw [dropWhile_eq_self_of_head h1]
  rw [dropWhile_eq_self_of_head (by simpa [List.head?_reverse] using h2)]
  exact List.reverse_reverse t

lemma stripChars_idem (s : List Char) : stripChars (stripChars s) = stripChars s :=
  stripChars_eq_self (head?_stripChars s) (getLast?_stripChars s)

lemma takeWhile_word_append {p : Char → Bool} {w1 : List Char} {c : Char} {t : List Char}
    (hw : ∀ x ∈ w1, p x = true) (hc : p c = false) :
    (w1 ++ c :: t).takeWhile p = w1 := by
  rw [List.takeWhile_append]
  have h1 : w1.takeWhile p = w1 := List.takeWhile_eq_self_iff.mpr hw
  rw [h1]
  simp [List.takeWhile_cons, hc]

lemma dropWhile_word_append {p : Char → Bool} {w1 : List Char} {c : Char} {t : List Char}
    (hw : ∀ x ∈ w1, p x = true) (hc : p c = false) :
    (w1 ++ c :: t).dropWhile p = c :: t := by
  rw [List.dropWhile_append]
  have h1 : w1.dropWhile p = [] := List.dropWhile_eq_nil_iff.mpr hw
  rw [h1]
  simp [List.dropWhile_cons, hc]

/-- Inversion of a successful `matchTwoWords`. -/
lemma matchTwoWords_eq_some {t m : List Char} (h : matchTwoWords t = some m) :
    ∃ w1 c w2 rest, t = w1 ++ c :: (w2 ++ rest) ∧ m = w1 ++ c :: w2 ∧
      w1 ≠ [] ∧ w2 ≠ [] ∧ (∀ x ∈ w1, wordChar x = true) ∧ c.isWhitespace = true ∧
      (∀ x ∈ w2, wordChar x = true) := by
  unfold matchTwoWords at h
  cases hd : t.dropWhile wordChar with
  | nil => rw [hd] at h; exact absurd h (by simp)
  | cons c rest0 =>
    rw [hd] at h
    simp only [] at h
    split_ifs at h with hcond hw2
    simp only [Option.some.injEq] at h
    refine ⟨t.takeWhile wordChar, c, rest0.takeWhile wordChar, rest0.dropWhile wordChar,
      ?_, h.symm, hcond.1, hw2, ?_, hcond.2, ?_⟩
    · conv_lhs => rw [← List.takeWhile_append_dropWhile (p := wordChar) (l := t)]
      rw [hd, List.takeWhile_append_dropWhile]
    · intro x hx; exact List.mem_takeWhile_imp hx
    · intro x hx; exact List.mem_takeWhile_imp hx

/-- A fully matched two-word prefix is itself a fixed point of `matchTwoWords`. -/
lemma matchTwoWords_of_shape {w1 : List Char} {c : Char} {w2 : List Char}
    (h1 : w1 ≠ []) (h2 : w2 ≠ []) (hw1 : ∀ x ∈ w1, wordChar x = true)
    (hc : c.isWhitespace = true) (hw2 : ∀ x ∈ w2, wordChar x = true) :
    matchTwoWords (w1 ++ c :: w2) = some (w1 ++ c :: w2) := by
  have hcw : wordChar c = false := whitespace_not_wordChar hc
  unfold matchTwoWords
  rw [dropWhile_word_append hw1 hcw]
  simp only []
  rw [takeWhile_word_append hw1 hcw, List.takeWhile_eq_self_iff.mpr hw2]
  rw [if_pos ⟨h1, hc⟩, if_pos h2]

/-- The result of a successful match is unchanged by stripping. -/
lemma stripChars_match {w1 : List Char} {c : Char} {w2 : List Char}
    (h1 : w1 ≠ []) (h2 : w2 ≠ []) (hw1 : ∀ x ∈ w1, wordChar x = true)
    (hw2 : ∀ x ∈ w2, wordChar x = true) :
    stripChars (w1 ++ c :: w2) = w1 ++ c :: w2 := by
  apply stripChars_eq_self
  · intro x hx
    rw [List.head?_append_of_ne_nil _ h1] at hx
    exact wordChar_not_whitespace (hw1 x (List.mem_of_mem_head? hx))
  · intro x hx
    rw [List.getLast?_append] at hx
    have hcw : (c :: w2).getLast? = w2.getLast? := by
      rw [List.getLast?_eq_getLast _ (by simp), List.getLast_cons h2,
        List.getLast?_eq_getLast _ h2]
    rw [hcw, List.getLast?_eq_getLast _ h2] at hx
    simp only [Option.or_some, Option.mem_def, Option.some.injEq] at hx
    subst hx
    exact wordChar_not_whitespace (hw2 _ (List.getLast_mem h2))

/-- C10: `normalize_teacher` is idempotent, and its result is either the
whitespace-stripped input or the input's first two single-whitespace-separated
words when the stripped input starts with two such words. -/
theorem c10_normalize_teacher_idempotent (name : String) :
    normalize_teacher (normalize_teacher name) = normalize_teacher name ∧
    (normalize_teacher name = String.mk (stripChars name.data) ∨
      ∃ w1 c w2 rest, stripChars name.data = w1 ++ c :: (w2 ++ rest) ∧
        normalize_teacher name = String.mk (w1 ++ c :: w2) ∧
        w1 ≠ [] ∧ w2 ≠ [] ∧ (∀ x ∈ w1, wordChar x = true) ∧ c.isWhitespace = true ∧
        (∀ x ∈ w2, wordChar x = true)) := by
  cases h : matchTwoWords (stripChars name.data) with
  | none =>
    have hres : normalize_teacher name = String.mk (stripChars name.data) := by
      unfold normalize_teacher
      rw [h]
    refine ⟨?_, Or.inl hres⟩
    rw [hres]
    unfold normalize_teacher
    show (match matchTwoWords (stripChars (stripChars name.data)) with
      | some m => String.mk m
      | none => String.mk (stripChars (stripChars name.data))) = String.mk (stripChars name.data)
    rw [stripChars_idem, h]
  | some m =>
    obtain ⟨w1, c, w2, rest, ht, hm, h1, h2, hw1, hc, hw2⟩ := matchTwoWords_eq_some h
    have hres : normalize_teacher name = String.mk m := by
      unfold normalize_teacher
      rw [h]
    refine ⟨?_, Or.inr ⟨w1, c, w2, rest, ht, by rw [hres, hm], h1, h2, hw1, hc, hw2⟩⟩
    rw [hres]
    unfold normalize_teacher
    show (match matchTwoWords (stripChars m) with
      | some m' => String.mk m'
      | none => String.mk (stripChars m)) = String.mk m
    rw [hm, stripChars_match h1 h2 hw1 hw2, matchTwoWords_of_shape h1 h2 hw1 hc hw2]

/-! ### data_io.py / data_preparation.py: load_data and its error handling -/

/-- One entry of the logging stream. -/
inductive LogEntry where
  | info (msg : String)
  | error (msg : String)
deriving DecidableEq, Repr

/-- Embedding of `data_io.load_data` (identical to `data_preparation.load_data`):
`pd.read_csv` is abstracted as a function `read_csv` from the path to either a
loaded frame or a raised exception; on success the frame is returned unchanged
after an info log, on failure an error is logged and the same exception is
re-raised. -/
def load_data {α : Type} (read_csv : String → Except String α) (file_path : String)
    (log : List LogEntry) : Except String α × List LogEntry :=
  match read_csv file_path with
  | Except.ok df => (Except.ok df, log ++ [LogEntry.info file_path])
  | Except.error e => (Except.error e, log ++ [LogEntry.error e])

/-- C7: when the underlying CSV read fails, `load_data` logs an error and
re-raises the same exception (it never swallows the error and never returns a
frame); on a successful read it returns the loaded frame unchanged after an
info log. -/
theorem c7_load_data_reraises {α : Type} (read_csv : String → Except String α)
    (path : String) (log : List LogEntry) :
    (∀ e, read_csv path = Except.error e →
      (load_data read_csv path log).1 = Except.error e ∧
      (load_data read_csv path log).2 = log ++ [LogEntry.error e]) ∧
    (∀ df, read_csv path = Except.ok df →
      (load_data read_csv path log).1 = Except.ok df ∧
      (load_data read_csv path log).2 = log ++ [LogEntry.info path]) := by
  constructor
  · intro e he
    unfold load_data
    rw [he]
    exact ⟨rfl, rfl⟩
  · intro df hdf
    unfold load_data
    rw [hdf]
    exact ⟨rfl, rfl⟩

/-- Witness for C7: a failing read re-raises, a succeeding read returns the frame. -/
theorem c7_load_data_witness :
    (load_data (fun _ => (Except.error "missing" : Except String ℕ)) "f.csv" []).1
      = Except.error "missing" ∧
    (load_data (fun _ => (Except.ok (0 : ℕ) : Except String ℕ)) "f.csv" []).1
      = Except.ok 0 :=
  ⟨((c7_load_data_reraises (fun _ => Except.error "missing") "f.csv" []).1 "missing" rfl).1,
   ((c7_load_data_reraises (fun _ => Except.ok 0) "f.csv" []).2 0 rfl).1⟩

/-! ### DBLostClients.py: the SQLite store -/

/-- One row of the `gone_clients_content` fact table (without the surrogate
primary key, which SQLite assigns automatically). -/
structure Fact where
  student_id : ℤ
  teacher_id : ℤ
  group_id : ℤ
  attendance_number : ℤ
  lost_reasons : Option String
deriving DecidableEq, Repr

/-- The reference tables as `(id, name)` pairs: `insert_into_gone_clients_content`
reads only the `id` and the name column of `students`, `teachers` and `groups`
(their remaining columns are never consulted by the lookups modelled here). -/
structure GoneDB where
  students : List (ℤ × Option String)
  teachers : List (ℤ × Option String)
  groups : List (ℤ × Option String)
  content : List Fact
deriving DecidableEq, Repr

/-- Model of `SELECT id FROM tbl WHERE name_col = ?` followed by `fetchone()`:
the first row in table order whose name equals the parameter; a NULL parameter
matches no row (SQL comparison with NULL is never true). -/
def sqlLookupId (tbl : List (ℤ × Option String)) : Option String → Option ℤ
  | none => none
  | some n => (tbl.find? (fun r => r.2 == some n)).map (fun r => r.1)

/-- One row of the merged DataFrame fed to `insert_into_gone_clients_content`. -/
structure MergedRow where
  student_name : Option String
  group_name : Option String
  teacher_name : Option String
  attendance_number : ℤ
  lost_reasons : Option String
deriving DecidableEq, Repr

/-- The optional `missing_values` argument: three manual-fix dictionaries. -/
structure FixMaps where
  students : List (String × String)
  groups : List (String × String)
  teachers : List (String × String)
deriving DecidableEq, Repr

/-- Model of `missing_values.get(kind, {}).get(name, name)`: a NaN name misses
every string key (and is returned as the default), a string name is replaced if
the dictionary has it. -/
def applyFix (m : List (String × String)) : Option String → Option String
  | none => none
  | some s => some ((((m.find? (fun kv => kv.1 == s))).map (fun kv => kv.2)).getD s)

def fixedStudent (mv : Option FixMaps) (row : MergedRow) : Option String :=
  match mv with
  | none => row.student_name
  | some f => applyFix f.students row.student_name

def fixedGroup (mv : Option FixMaps) (row : MergedRow) : Option String :=
  match mv with
  | none => row.group_name
  | some f => applyFix f.groups row.group_name

def fixedTeacher (mv : Option FixMaps) (row : MergedRow) : Option String :=
  match mv with
  | none => row.teacher_name
  | some f => applyFix f.teachers row.teacher_name

def warnStudent : String := "Студента не знайдено"
def warnTeacher : String := "Викладача не знайдено"
def warnGroup : String := "Групу не знайдено"

/-- Body of the per-row loop of `insert_into_gone_clients_content`: look up the
three ids in order (student, teacher, group); on the first miss print a warning
and leave the table unchanged (`continue`), otherwise insert the fact. -/
def insertStep (mv : Option FixMaps) (db : GoneDB) (log : List String)
    (row : MergedRow) : GoneDB × List String :=
  match sqlLookupId db.students (fixedStudent mv row) with
  | none => (db, log ++ [warnStudent])
  | some sid =>
    match sqlLookupId db.teachers (fixedTeacher mv row) with
    | none => (db, log ++ [warnTeacher])
    | some tid =>
      match sqlLookupId db.groups (fixedGroup mv row) with
      | none => (db, log ++ [warnGroup])
      | some gid =>
        ({ db with content := db.content ++
            [{ student_id := sid, teacher_id := tid, group_id := gid,
               attendance_number := row.attendance_number,
               lost_reasons := row.lost_reasons }] }, log)

/-- Embedding of `insert_into_gone_clients_content`: iterate `insertStep` over
the DataFrame rows, threading the database and the printed warnings. -/
def insert_into_gone_clients_content (df : List MergedRow) (db : GoneDB)
    (log : List String) (mv : Option FixMaps) : GoneDB × List String :=
  df.foldl (fun st row => insertStep mv st.1 st.2 row) (db, log)

/-- A fact's three foreign keys all resolve in the reference tables. -/
def refsExist (db : GoneDB) (f : Fact) : Prop :=
  (∃ s ∈ db.students, s.1 = f.student_id) ∧
  (∃ t ∈ db.teachers, t.1 = f.teacher_id) ∧
  (∃ g ∈ db.groups, g.1 = f.group_id)

instance (db : GoneDB) (f : Fact) : Decidable (refsExist db f) := by
  unfold refsExist
  infer_instance

/-- At least one of the three name lookups of a row misses. -/
def lookupFails (db : GoneDB) (mv : Option FixMaps) (row : MergedRow) : Prop :=
  sqlLookupId db.students (fixedStudent mv row) = none ∨
  sqlLookupId db.teachers (fixedTeacher mv row) = none ∨
  sqlLookupId db.groups (fixedGroup mv row) = none

instance (db : GoneDB) (mv : Option FixMaps) (row : MergedRow) :
    Decidable (lookupFails db mv row) := by
  unfold lookupFails
  infer_instance

lemma sqlLookupId_mem {tbl : List (ℤ × Option String)} {n : Option String} {i : ℤ}
    (h : sqlLookupId tbl n = some i) : ∃ r ∈ tbl, r.1 = i := by
  cases n with
  | none => cases h
  | some s =>
    simp only [sqlLookupId] at h
    cases hf : tbl.find? (fun r => r.2 == some s) with
    | none => rw [hf] at h; cases h
    | some r =>
      rw [hf] at h
      simp at h
      exact ⟨r, List.mem_of_find?_eq_some hf, h⟩

/-- A single `insertStep` never touches the reference tables, and either leaves
the content unchanged or appends exactly one fact whose references resolve. -/
lemma insertStep_cases (mv : Option FixMaps) (db : GoneDB) (log : List String)
    (row : MergedRow) :
    ((insertStep mv db log row).1.students = db.students ∧
     (insertStep mv db log row).1.teachers = db.teachers ∧
     (insertStep mv db log row).1.groups = db.groups) ∧
    ((insertStep mv db log row).1.content = db.content ∨
     ∃ f, refsExist db f ∧ (insertStep mv db log row).1.content = db.content ++ [f]) := by
  unfold insertStep
  cases hs : sqlLookupId db.students (fixedStudent mv row) with
  | none => exact ⟨⟨rfl, rfl, rfl⟩, Or.inl rfl⟩
  | some sid =>
    cases ht : sqlLookupId db.teachers (fixedTeacher mv row) with
    | none => exact ⟨⟨rfl, rfl, rfl⟩, Or.inl rfl⟩
    | some tid =>
      cases hg : sqlLookupId db.groups (fixedGroup mv row) with
      | none => exact ⟨⟨rfl, rfl, rfl⟩, Or.inl rfl⟩
      | some gid =>
        exact ⟨⟨rfl, rfl, rfl⟩,
          Or.inr ⟨_, ⟨sqlLookupId_mem hs, sqlLookupId_mem ht, sqlLookupId_mem hg⟩, rfl⟩⟩

/-- A row with a failed lookup is skipped: the database is unchanged and one
warning is printed. -/
lemma insertStep_skip {db : GoneDB} {mv : Option FixMaps} {row : MergedRow}
    (log : List String) (h : lookupFails db mv row) :
    (insertStep mv db log row).1 = db ∧
    ∃ w, (insertStep mv db log row).2 = log ++ [w] := by
  unfold insertStep
  cases hs : sqlLookupId db.students (fixedStudent mv row) with
  | none => exact ⟨rfl, warnStudent, rfl⟩
  | some sid =>
    cases ht : sqlLookupId db.teachers (fixedTeacher mv row) with
    | none => exact ⟨rfl, warnTeacher, rfl⟩
    | some tid =>
      cases hg : sqlLookupId db.groups (fixedGroup mv row) with
      | none => exact ⟨rfl, warnGroup, rfl⟩
      | some gid =>
        exfalso
        rcases h with h | h | h
        · rw [h] at hs; cases hs
        · rw [h] at ht; cases ht
        · rw [h] at hg; cases hg

/-- Invariant of the whole fold: reference tables never change and every fact
of the final content is either pre-existing or has resolving references. -/
lemma insert_run_invariant (mv : Option FixMaps) :
    ∀ (df : List MergedRow) (db : GoneDB) (log : List String),
      ((insert_into_gone_clients_content df db log mv).1.students = db.students ∧
       (insert_into_gone_clients_content df db log mv).1.teachers = db.teachers ∧
       (insert_into_gone_clients_content df db log mv).1.groups = db.groups) ∧
      ∀ f ∈ (insert_into_gone_clients_content df db log mv).1.content,
        f ∈ db.content ∨ refsExist db f := by
  intro df
  induction df with
  | nil =>
    intro db log
    exact ⟨⟨rfl, rfl, rfl⟩, fun f hf => Or.inl hf⟩
  | cons row rest ih =>
    intro db log
    have hrun : insert_into_gone_clients_content (row :: rest) db log mv =
        insert_into_gone_clients_content rest (insertStep mv db log row).1
          (insertStep mv db log row).2 mv := rfl
    obtain ⟨⟨hs, ht, hg⟩, hcont⟩ := insertStep_cases mv db log row
    obtain ⟨⟨ihs, iht, ihg⟩, ihcont⟩ := ih (insertStep mv db log row).1 (insertStep mv db log row).2
    rw [hrun]
    refine ⟨⟨ihs.trans hs, iht.trans ht, ihg.trans hg⟩, ?_⟩
    intro f hf
    have hrefs : ∀ f', refsExist (insertStep mv db log row).1 f' ↔ refsExist db f' := by
      intro f'
      unfold refsExist
      rw [hs, ht, hg]
    rcases ihcont f hf with hin | hrf
    · rcases hcont with hsame | ⟨f0, hf0, happ⟩
      · rw [hsame] at hin
        exact Or.inl hin
      · rw [happ] at hin
        rcases List.mem_append.mp hin with hold | hnew
        · exact Or.inl hold
        · right
          rw [List.mem_singleton.mp hnew]
          exact hf0
    · exact Or.inr ((hrefs f).mp hrf)

/-- C1: every fact inserted by `insert_into_gone_clients_content` references
existing student, teacher and group rows; a row for which any of the three
lookups fails inserts nothing and produces one printed warning; processing
then continues with the next row. -/
theorem c1_referential_integrity (df : List MergedRow) (db : GoneDB)
    (log : List String) (mv : Option FixMaps) :
    (∀ f ∈ (insert_into_gone_clients_content df db log mv).1.content,
      f ∈ db.content ∨ refsExist db f) ∧
    (∀ row, lookupFails db mv row →
      (insertStep mv db log row).1 = db ∧
      ∃ w, (insertStep mv db log row).2 = log ++ [w]) ∧
    (∀ row rest, insert_into_gone_clients_content (row :: rest) db log mv =
      insert_into_gone_clients_content rest (insertStep mv db log row).1
        (insertStep mv db log row).2 mv) :=
  ⟨(insert_run_invariant mv df db log).2,
   fun _ h => insertStep_skip log h,
   fun _ _ => rfl⟩

/-- Concrete database for the C1 witness. -/
def dbC1 : GoneDB :=
  { students := [(1, some "s")], teachers := [(2, some "t")],
    groups := [(3, some "g")], content := [] }

/-- Concrete matched row and unmatched row for the C1 witness. -/
def rowOk : MergedRow :=
  { student_name := some "s", group_name := some "g", teacher_name := some "t",
    attendance_number := 5, lost_reasons := none }

def rowMiss : MergedRow :=
  { student_name := some "x", group_name := some "g", teacher_name := some "t",
    attendance_number := 5, lost_reasons := none }

/-- Witness for C1: on a concrete run, the single inserted fact resolves and
the unmatched row is skipped with a warning. -/
theorem c1_referential_integrity_witness :
    (Fact.mk 1 2 3 5 none ∈
        (insert_into_gone_clients_content [rowOk, rowMiss] dbC1 [] none).1.content ∧
      (Fact.mk 1 2 3 5 none ∈ dbC1.content ∨ refsExist dbC1 (Fact.mk 1 2 3 5 none))) ∧
    ((insertStep none dbC1 [] rowMiss).1 = dbC1 ∧
      ∃ w, (insertStep none dbC1 [] rowMiss).2 = [] ++ [w]) :=
  ⟨⟨by decide, (c1_referential_integrity [rowOk, rowMiss] dbC1 [] none).1 _ (by decide)⟩,
   (c1_referential_integrity [rowOk, rowMiss] dbC1 [] none).2.1 rowMiss (by decide)⟩

/-! ### DBLostClients.py: create() and insert_df_to_table() -/

/-- A projected row of the `students` source frame under the column mapping
(student_name, student_id, age). -/
abbrev StudentRow := Option String × Option ℤ × Option ℤ

/-- A projected row of the `teachers` source frame (teacher_name, subject, city). -/
abbrev TeacherRow := Option String × Option String × Option String

/-- A projected row of the `groups` source frame (group_name, group_id,
start_date as its string form). -/
abbrev GroupRow := Option String × Option ℤ × Option String

/-- The SQLite file: each table either does not exist yet (`none`) or holds a
list of rows. -/
structure Store where
  students : Option (List StudentRow)
  teachers : Option (List TeacherRow)
  groups : Option (List GroupRow)
  gone_clients_content : Option (List Fact)
deriving DecidableEq, Repr

/-- Model of `CREATE TABLE IF NOT EXISTS`: create the table empty when it is
missing, keep its rows when it already exists. -/
def createTable {α : Type} (t : Option (List α)) : Option (List α) :=
  match t with
  | none => some []
  | some rows => some rows

/-- Embedding of `DBLostClients.create`: run `CREATE TABLE IF NOT EXISTS` for
the four tables. -/
def create (st : Store) : Store :=
  { students := createTable st.students,
    teachers := createTable st.teachers,
    groups := createTable st.groups,
    gone_clients_content := createTable st.gone_clients_content }

/-- Model of `DataFrame.drop_duplicates()`: keep the first occurrence of each
row (`seen` accumulates the rows already emitted). -/
def dedupFirst {α : Type} [DecidableEq α] : List α → List α → List α
  | _, [] => []
  | seen, a :: l => if a ∈ seen then dedupFirst seen l else a :: dedupFirst (a :: seen) l

/-- Embedding of `insert_df_to_table`: project, deduplicate and append the
DataFrame rows to the table with plain INSERTs (surrogate ids omitted; nothing
is deleted first). A missing table would make INSERT fail, modelled by `none`. -/
def insert_df_to_table {α : Type} [DecidableEq α] (df : List α)
    (t : Option (List α)) : Option (List α) :=
  t.map (fun rows => rows ++ dedupFirst [] df)

/-- One run of the database-build steps of `DBLostClients.main` that touch the
reference tables: `create()` followed by the three `insert_df_to_table` calls. -/
def buildOnce (d1 : List StudentRow) (d2 : List TeacherRow) (d3 : List GroupRow)
    (st : Store) : Store :=
  { students := insert_df_to_table d1 (create st).students,
    teachers := insert_df_to_table d2 (create st).teachers,
    groups := insert_df_to_table d3 (create st).groups,
    gone_clients_content := (create st).gone_clients_content }

/-- The store before the first run: no tables exist. -/
def emptyStore : Store := ⟨none, none, none, none⟩

/-- C2 counterexample: running the build a second time over the already-built
store does not leave the contents equal to a single run — the single student
row is inserted again, so the students table doubles. -/
theorem c2_rebuild_not_idempotent_counterexample :
    ¬ (buildOnce [(some "s", some 1, some 7)] [] []
          (buildOnce [(some "s", some 1, some 7)] [] [] emptyStore) =
        buildOnce [(some "s", some 1, some 7)] [] [] emptyStore) := by
  decide

/-- C2 amended: `create` itself is idempotent (a second `CREATE TABLE IF NOT
EXISTS` pass changes nothing), but the full reinsert is not: a second run
appends a second copy of each deduplicated source frame, so the store
accumulates instead of being rebuilt wholesale. -/
theorem c2_create_idempotent_reinsert_accumulates :
    (∀ st : Store, create (create st) = create st) ∧
    (∀ (d1 : List StudentRow) (d2 : List TeacherRow) (d3 : List GroupRow),
      buildOnce d1 d2 d3 emptyStore =
        ({ students := some (dedupFirst [] d1),
           teachers := some (dedupFirst [] d2),
           groups := some (dedupFirst [] d3),
           gone_clients_content := some [] } : Store) ∧
      buildOnce d1 d2 d3 (buildOnce d1 d2 d3 emptyStore) =
        ({ students := some (dedupFirst [] d1 ++ dedupFirst [] d1),
           teachers := some (dedupFirst [] d2 ++ dedupFirst [] d2),
           groups := some (dedupFirst [] d3 ++ dedupFirst [] d3),
           gone_clients_content := some [] } : Store)) := by
  constructor
  · intro st
    cases st with
    | mk a b c d =>
      cases a <;> cases b <;> cases c <;> cases d <;> rfl
  · intro d1 d2 d3
    constructor
    · simp [buildOnce, create, createTable, insert_df_to_table, emptyStore]
    · simp [buildOnce, create, createTable, insert_df_to_table, emptyStore]

/-! ### Quantiles with linear interpolation (pandas `Series.quantile`,
`numpy.percentile` with the default interpolation="linear") -/

/-- The ascending sorted copy of the values used by the quantile computation. -/
def sortedVals (l : List ℚ) : List ℚ := List.insertionSort (· ≤ ·) l

/-- Linear interpolation of the sorted values s at the virtual index h:
s[i] + (h - i) * (s[min(i+1, n-1)] - s[i]) with i = floor(h). -/
def interpAt (s : List ℚ) (h : ℚ) : ℚ :=
  s.getD (⌊h⌋).toNat 0 +
    (h - ((⌊h⌋).toNat : ℚ)) *
      (s.getD (min ((⌊h⌋).toNat + 1) (s.length - 1)) 0 - s.getD (⌊h⌋).toNat 0)

/-- Model of `Series.quantile(p)` / `np.percentile(values, 100*p)`: linear
interpolation at the virtual index p*(n-1) of the sorted values.  An empty
series has no quantile (pandas yields NaN, numpy raises); 0 stands in as a
dummy that no claim relies on. -/
def quantileQ (l : List ℚ) (p : ℚ) : ℚ :=
  if l = [] then 0 else interpAt (sortedVals l) (p * ((l.length : ℚ) - 1))

lemma length_sortedVals (l : List ℚ) : (sortedVals l).length = l.length :=
  (List.perm_insertionSort _ l).length_eq

lemma sorted_getD_mono {s : List ℚ} (hs : List.Sorted (· ≤ ·) s) {i j : ℕ}
    (hij : i ≤ j) (hj : j < s.length) : s.getD i 0 ≤ s.getD j 0 := by
  have hi : i < s.length := lt_of_le_of_lt hij hj
  rw [List.getD_eq_getElem s 0 hi, List.getD_eq_getElem s 0 hj]
  rcases eq_or_lt_of_le hij with heq | hlt
  · subst heq
    exact le_refl _
  · have := hs.rel_get_of_lt (a := ⟨i, hi⟩) (b := ⟨j, hj⟩) hlt
    simpa using this

/-- Monotonicity of linear interpolation over a sorted list. -/
lemma interpAt_mono {s : List ℚ} (hs : List.Sorted (· ≤ ·) s) {h h' : ℚ}
    (h0 : 0 ≤ h) (hh : h ≤ h') (hub : h' ≤ (s.length : ℚ) - 1) :
    interpAt s h ≤ interpAt s h' := by
  have h0' : 0 ≤ h' := le_trans h0 hh
  have hn : 1 ≤ s.length := by
    rcases Nat.eq_zero_or_pos s.length with hz | hp
    · exfalso; rw [hz] at hub; push_cast at hub; linarith
    · exact hp
  have hfl0 : (0 : ℤ) ≤ ⌊h⌋ := Int.floor_nonneg.mpr h0
  have hfl0' : (0 : ℤ) ≤ ⌊h'⌋ := Int.floor_nonneg.mpr h0'
  have hcast : ((⌊h⌋.toNat : ℚ)) = ((⌊h⌋ : ℤ) : ℚ) := by
    exact_mod_cast congrArg (fun z : ℤ => (z : ℚ)) (Int.toNat_of_nonneg hfl0)
  have hcast' : ((⌊h'⌋.toNat : ℚ)) = ((⌊h'⌋ : ℤ) : ℚ) := by
    exact_mod_cast congrArg (fun z : ℤ => (z : ℚ)) (Int.toNat_of_nonneg hfl0')
  have hile : ((⌊h⌋.toNat : ℚ)) ≤ h := by rw [hcast]; exact Int.floor_le h
  have hile' : ((⌊h'⌋.toNat : ℚ)) ≤ h' := by rw [hcast']; exact Int.floor_le h'
  have hlt1 : h < (⌊h⌋.toNat : ℚ) + 1 := by rw [hcast]; exact Int.lt_floor_add_one h
  have hii' : ⌊h⌋.toNat ≤ ⌊h'⌋.toNat := Int.toNat_le_toNat (Int.floor_mono hh)
  have hub' : ⌊h'⌋.toNat ≤ s.length - 1 := by
    have h1 : ⌊h'⌋ ≤ (s.length : ℤ) - 1 := by
      have h2 := Int.floor_mono hub
      rwa [show ((s.length : ℚ) - 1) = (((s.length : ℤ) - 1 : ℤ) : ℚ) by push_cast; ring,
        Int.floor_intCast] at h2
    omega
  have key : ∀ j : ℕ, j ≤ s.length - 1 →
      s.getD j 0 ≤ s.getD (min (j + 1) (s.length - 1)) 0 := by
    intro j hj
    exact sorted_getD_mono hs (by omega) (by omega)
  rcases eq_or_lt_of_le hii' with heq | hlt
  · unfold interpAt
    rw [← heq]
    have hd0 : 0 ≤ s.getD (min (⌊h⌋.toNat + 1) (s.length - 1)) 0 - s.getD (⌊h⌋.toNat) 0 := by
      have := key ⌊h⌋.toNat (by omega)
      linarith
    have hmul := mul_le_mul_of_nonneg_right
      (show h - (⌊h⌋.toNat : ℚ) ≤ h' - (⌊h⌋.toNat : ℚ) by linarith) hd0
    linarith
  · have hstep1 : interpAt s h ≤ s.getD (min (⌊h⌋.toNat + 1) (s.length - 1)) 0 := by
      unfold interpAt
      have hd0 : 0 ≤ s.getD (min (⌊h⌋.toNat + 1) (s.length - 1)) 0 - s.getD (⌊h⌋.toNat) 0 := by
        have := key ⌊h⌋.toNat (by omega)
        linarith
      have hle1 : h - (⌊h⌋.toNat : ℚ) ≤ 1 := by linarith
      have := mul_le_mul_of_nonneg_right hle1 hd0
      linarith
    have hstep2 : s.getD (min (⌊h⌋.toNat + 1) (s.length - 1)) 0 ≤ s.getD (⌊h'⌋.toNat) 0 :=
      sorted_getD_mono hs (by omega) (by omega)
    have hstep3 : s.getD (⌊h'⌋.toNat) 0 ≤ interpAt s h' := by
      unfold interpAt
      have hd0' : 0 ≤ s.getD (min (⌊h'⌋.toNat + 1) (s.length - 1)) 0 - s.getD (⌊h'⌋.toNat) 0 := by
        have := key ⌊h'⌋.toNat (by omega)
        linarith
      have hge0 : 0 ≤ h' - (⌊h'⌋.toNat : ℚ) := by linarith
      nlinarith [mul_nonneg hge0 hd0']
    linarith

/-- Monotonicity of the quantile in the probability. -/
lemma quantileQ_mono (l : List ℚ) {p p' : ℚ} (hp0 : 0 ≤ p) (hpp : p ≤ p')
    (hp1 : p' ≤ 1) : quantileQ l p ≤ quantileQ l p' := by
  unfold quantileQ
  split_ifs with hl
  · exact le_refl 0
  · have hn : 1 ≤ l.length := List.length_pos.mpr hl
    have hge : (0 : ℚ) ≤ (l.length : ℚ) - 1 := by
      have : (1 : ℚ) ≤ (l.length : ℚ) := by exact_mod_cast hn
      linarith
    apply interpAt_mono (List.sorted_insertionSort _ l)
    · exact mul_nonneg hp0 hge
    · exact mul_le_mul_of_nonneg_right hpp hge
    · have hlen : (List.insertionSort (fun x1 x2 : ℚ => x1 ≤ x2) l).length = l.length :=
        (List.perm_insertionSort _ l).length_eq
      rw [hlen]
      have := mul_le_mul_of_nonneg_right hp1 hge
      linarith

/-! ### analytics.py: get_quartile_category_teachers_list -/

/-- One row of the analytics frame, restricted to the two columns the
categorizer reads. -/
structure LossRow where
  percent_of_loss_for_one_group : ℚ
  name_normalized : String
deriving DecidableEq, Repr

/-- Embedding of the inner `list_for_indicator` helper: compute the quantile of
the metric at `indicator`; when the indicator equals the Q1 argument take the
names of rows strictly below it, when it equals the Q3 argument the names
strictly above it, otherwise the names between the Q1- and Q3-quantiles
inclusively. -/
def list_for_indicator (df : List LossRow) (Q1 Q3 indicator : ℚ) : List String :=
  if indicator = Q1 then
    (df.filter (fun r => decide (r.percent_of_loss_for_one_group <
        quantileQ (df.map LossRow.percent_of_loss_for_one_group) indicator))).map
      LossRow.name_normalized
  else if indicator = Q3 then
    (df.filter (fun r => decide (quantileQ (df.map LossRow.percent_of_loss_for_one_group)
        indicator < r.percent_of_loss_for_one_group))).map LossRow.name_normalized
  else
    (df.filter (fun r =>
        decide (quantileQ (df.map LossRow.percent_of_loss_for_one_group) Q1 ≤
          r.percent_of_loss_for_one_group) &&
        decide (r.percent_of_loss_for_one_group ≤
          quantileQ (df.map LossRow.percent_of_loss_for_one_group) Q3))).map
      LossRow.name_normalized

/-- The returned dictionary of the categorizer. -/
structure QuartileLists where
  best : List String
  interquartile : List String
  bad : List String
deriving DecidableEq, Repr

/-- Embedding of `analytics.get_quartile_category_teachers_list`. -/
def get_quartile_category_teachers_list (df : List LossRow) (Q1 Q2 Q3 : ℚ) :
    QuartileLists :=
  { best := list_for_indicator df Q1 Q3 Q1,
    interquartile := list_for_indicator df Q1 Q3 Q2,
    bad := list_for_indicator df Q1 Q3 Q3 }

/-- Three mutually exclusive, jointly exhaustive filters split a list's length. -/
lemma length_filter_three {α : Type} (p q r : α → Bool) (l : List α)
    (h : ∀ x ∈ l,
      (p x = true ∧ q x = false ∧ r x = false) ∨
      (p x = false ∧ q x = true ∧ r x = false) ∨
      (p x = false ∧ q x = false ∧ r x = true)) :
    (l.filter p).length + (l.filter q).length + (l.filter r).length = l.length := by
  induction l with
  | nil => rfl
  | cons a t ih =>
    have ha := h a (List.mem_cons_self a t)
    have ih' := ih (fun x hx => h x (List.mem_cons_of_mem a hx))
    rcases ha with ⟨h1, h2, h3⟩ | ⟨h1, h2, h3⟩ | ⟨h1, h2, h3⟩ <;>
      simp [List.filter_cons, h1, h2, h3] <;> omega

/-- A row falls in exactly one of the three tiers returned with the default
quantile arguments, and its name is a member of the corresponding list. -/
def inExactlyOneTier (df : List LossRow) (r : LossRow) : Prop :=
      (r.percent_of_loss_for_one_group <
          quantileQ (df.map LossRow.percent_of_loss_for_one_group) (1/4) ∧
        ¬(quantileQ (df.map LossRow.percent_of_loss_for_one_group) (1/4) ≤
            r.percent_of_loss_for_one_group ∧
          r.percent_of_loss_for_one_group ≤
            quantileQ (df.map LossRow.percent_of_loss_for_one_group) (3/4)) ∧
        ¬(quantileQ (df.map LossRow.percent_of_loss_for_one_group) (3/4) <
            r.percent_of_loss_for_one_group) ∧
        r.name_normalized ∈ (get_quartile_category_teachers_list df (1/4) (1/2) (3/4)).best) ∨
      (¬(r.percent_of_loss_for_one_group <
          quantileQ (df.map LossRow.percent_of_loss_for_one_group) (1/4)) ∧
        (quantileQ (df.map LossRow.percent_of_loss_for_one_group) (1/4) ≤
            r.percent_of_loss_for_one_group ∧
          r.percent_of_loss_for_one_group ≤
            quantileQ (df.map LossRow.percent_of_loss_for_one_group) (3/4)) ∧
        ¬(quantileQ (df.map LossRow.percent_of_loss_for_one_group) (3/4) <
            r.percent_of_loss_for_one_group) ∧
        r.name_normalized ∈
          (get_quartile_category_teachers_list df (1/4) (1/2) (3/4)).interquartile) ∨
      (¬(r.percent_of_loss_for_one_group <
          quantileQ (df.map LossRow.percent_of_loss_for_one_group) (1/4)) ∧
        ¬(quantileQ (df.map LossRow.percent_of_loss_for_one_group) (1/4) ≤
            r.percent_of_loss_for_one_group ∧
          r.percent_of_loss_for_one_group ≤
            quantileQ (df.map LossRow.percent_of_loss_for_one_group) (3/4)) ∧
        quantileQ (df.map LossRow.percent_of_loss_for_one_group) (3/4) <
          r.percent_of_loss_for_one_group ∧
        r.name_normalized ∈ (get_quartile_category_teachers_list df (1/4) (1/2) (3/4)).bad)

/-- C3: with the default quantile arguments, the categorizer returns exactly the
names of rows strictly below the 0.25-quantile as "best", strictly above the
0.75-quantile as "bad", and inside the closed interquartile interval as
"interquartile"; each row of the frame falls in exactly one of the three lists,
so the lists partition the rows. -/
theorem c3_quartile_partition (df : List LossRow) :
    ((get_quartile_category_teachers_list df (1/4) (1/2) (3/4)).best =
      (df.filter (fun r => decide (r.percent_of_loss_for_one_group <
          quantileQ (df.map LossRow.percent_of_loss_for_one_group) (1/4)))).map
        LossRow.name_normalized ∧
     (get_quartile_category_teachers_list df (1/4) (1/2) (3/4)).interquartile =
      (df.filter (fun r =>
          decide (quantileQ (df.map LossRow.percent_of_loss_for_one_group) (1/4) ≤
            r.percent_of_loss_for_one_group) &&
          decide (r.percent_of_loss_for_one_group ≤
            quantileQ (df.map LossRow.percent_of_loss_for_one_group) (3/4)))).map
        LossRow.name_normalized ∧
     (get_quartile_category_teachers_list df (1/4) (1/2) (3/4)).bad =
      (df.filter (fun r => decide (quantileQ (df.map LossRow.percent_of_loss_for_one_group)
          (3/4) < r.percent_of_loss_for_one_group))).map LossRow.name_normalized) ∧
    (∀ r ∈ df, inExactlyOneTier df r) ∧
    ((get_quartile_category_teachers_list df (1/4) (1/2) (3/4)).best.length +
      (get_quartile_category_teachers_list df (1/4) (1/2) (3/4)).interquartile.length +
      (get_quartile_category_teachers_list df (1/4) (1/2) (3/4)).bad.length = df.length) := by
  have hq : quantileQ (df.map LossRow.percent_of_loss_for_one_group) (1/4) ≤
      quantileQ (df.map LossRow.percent_of_loss_for_one_group) (3/4) :=
    quantileQ_mono _ (by norm_num) (by norm_num) (by norm_num)
  have e1 : (get_quartile_category_teachers_list df (1/4) (1/2) (3/4)).best =
      (df.filter (fun r => decide (r.percent_of_loss_for_one_group <
          quantileQ (df.map LossRow.percent_of_loss_for_one_group) (1/4)))).map
        LossRow.name_normalized := by
    show list_for_indicator df (1/4) (3/4) (1/4) = _
    unfold list_for_indicator
    rw [if_pos rfl]
  have e2 : (get_quartile_category_teachers_list df (1/4) (1/2) (3/4)).interquartile =
      (df.filter (fun r =>
          decide (quantileQ (df.map LossRow.percent_of_loss_for_one_group) (1/4) ≤
            r.percent_of_loss_for_one_group) &&
          decide (r.percent_of_loss_for_one_group ≤
            quantileQ (df.map LossRow.percent_of_loss_for_one_group) (3/4)))).map
        LossRow.name_normalized := by
    show list_for_indicator df (1/4) (3/4) (1/2) = _
    unfold list_for_indicator
    rw [if_neg (by norm_num), if_neg (by norm_num)]
  have e3 : (get_quartile_category_teachers_list df (1/4) (1/2) (3/4)).bad =
      (df.filter (fun r => decide (quantileQ (df.map LossRow.percent_of_loss_for_one_group)
          (3/4) < r.percent_of_loss_for_one_group))).map LossRow.name_normalized := by
    show list_for_indicator df (1/4) (3/4) (3/4) = _
    unfold list_for_indicator
    rw [if_neg (by norm_num), if_pos rfl]
  refine ⟨⟨e1, e2, e3⟩, ?_, ?_⟩
  · intro r hr
    unfold inExactlyOneTier
    rcases lt_or_le r.percent_of_loss_for_one_group
        (quantileQ (df.map LossRow.percent_of_loss_for_one_group) (1/4)) with h | h
    · refine Or.inl ⟨h, fun hx => absurd h (not_lt.mpr hx.1),
        not_lt.mpr (le_of_lt (lt_of_lt_of_le h hq)), ?_⟩
      rw [e1]
      exact List.mem_map.mpr ⟨r, List.mem_filter.mpr ⟨hr, decide_eq_true h⟩, rfl⟩
    · rcases le_or_lt r.percent_of_loss_for_one_group
          (quantileQ (df.map LossRow.percent_of_loss_for_one_group) (3/4)) with h2 | h2
      · refine Or.inr (Or.inl ⟨not_lt.mpr h, ⟨h, h2⟩, not_lt.mpr h2, ?_⟩)
        rw [e2]
        refine List.mem_map.mpr ⟨r, List.mem_filter.mpr ⟨hr, ?_⟩, rfl⟩
        rw [decide_eq_true h, decide_eq_true h2]
        rfl
      · refine Or.inr (Or.inr ⟨not_lt.mpr h, fun hx => absurd h2 (not_lt.mpr hx.2), h2, ?_⟩)
        rw [e3]
        exact List.mem_map.mpr ⟨r, List.mem_filter.mpr ⟨hr, decide_eq_true h2⟩, rfl⟩
  · rw [e1, e2, e3]
    simp only [List.length_map]
    apply length_filter_three
    intro x hx
    rcases lt_or_le x.percent_of_loss_for_one_group
        (quantileQ (df.map LossRow.percent_of_loss_for_one_group) (1/4)) with h | h
    · exact Or.inl ⟨decide_eq_true h, by rw [decide_eq_false (not_le.mpr h)]; rfl,
        decide_eq_false (not_lt.mpr (le_of_lt (lt_of_lt_of_le h hq)))⟩
    · rcases le_or_lt x.percent_of_loss_for_one_group
          (quantileQ (df.map LossRow.percent_of_loss_for_one_group) (3/4)) with h2 | h2
      · exact Or.inr (Or.inl ⟨decide_eq_false (not_lt.mpr h),
          by rw [decide_eq_true h, decide_eq_true h2]; rfl, decide_eq_false (not_lt.mpr h2)⟩)
      · exact Or.inr (Or.inr ⟨decide_eq_false (not_lt.mpr h),
          by rw [decide_eq_false (not_le.mpr h2), Bool.and_false], decide_eq_true h2⟩)

/-- Concrete analytics frame for the C3 witness. -/
def dfC3 : List LossRow := [⟨1, "a"⟩, ⟨2, "b"⟩, ⟨3, "c"⟩, ⟨4, "d"⟩]

/-- Witness for C3: a concrete row of a concrete frame falls in exactly one tier. -/
theorem c3_quartile_partition_witness :
    LossRow.mk 1 "a" ∈ dfC3 ∧ inExactlyOneTier dfC3 (LossRow.mk 1 "a") :=
  ⟨by decide, (c3_quartile_partition dfC3).2.1 (LossRow.mk 1 "a") (by decide)⟩

/-! ### visualization.py: plot_box_compare -/

/-- One data point of a period frame passed to `plot_box_compare`: the value
column and the teacher column. -/
structure PerfRow where
  value : ℚ
  teacher : String
deriving DecidableEq, Repr

/-- Model of `np.percentile(values, q)` (linear interpolation). -/
def np_percentile (values : List ℚ) (q : ℚ) : ℚ := quantileQ values (q / 100)

/-- Body of the per-year loop of `plot_box_compare`: restrict the combined frame
to one year, compute the IQR fences of that year's values, and list the teachers
of the points strictly outside the fences, in frame order. -/
def outliersForYear (combined : List (PerfRow × String)) (year : String) :
    List String :=
  (combined.filter (fun x => x.2 == year)).filter (fun x =>
      decide (x.1.value <
        np_percentile ((combined.filter (fun y => y.2 == year)).map (fun y => y.1.value)) 25 -
          1.5 * (np_percentile ((combined.filter (fun y => y.2 == year)).map
              (fun y => y.1.value)) 75 -
            np_percentile ((combined.filter (fun y => y.2 == year)).map
              (fun y => y.1.value)) 25)) ||
      decide (np_percentile ((combined.filter (fun y => y.2 == year)).map
            (fun y => y.1.value)) 75 +
          1.5 * (np_percentile ((combined.filter (fun y => y.2 == year)).map
              (fun y => y.1.value)) 75 -
            np_percentile ((combined.filter (fun y => y.2 == year)).map
              (fun y => y.1.value)) 25) < x.1.value))
    |>.map (fun x => x.1.teacher)

/-- Embedding of `visualization.plot_box_compare` restricted to its returned
value: tag the two period frames with their axis labels, concatenate them, and
collect the outlier teachers of each label in label order. -/
def plot_box_compare (df1 df2 : List PerfRow) (label1 label2 : String) :
    List String :=
  outliersForYear (df1.map (fun r => (r, label1)) ++ df2.map (fun r => (r, label2))) label1 ++
    outliersForYear (df1.map (fun r => (r, label1)) ++ df2.map (fun r => (r, label2))) label2

/-- The outliers of one period as the claim describes them: entries strictly
below Q1 - 1.5*IQR or strictly above Q3 + 1.5*IQR, where Q1 and Q3 are the 25th
and 75th percentiles of that period's values. -/
def claimOutliers (d : List PerfRow) : List String :=
  (d.filter (fun r =>
      decide (r.value < np_percentile (d.map PerfRow.value) 25 -
        1.5 * (np_percentile (d.map PerfRow.value) 75 -
          np_percentile (d.map PerfRow.value) 25)) ||
      decide (np_percentile (d.map PerfRow.value) 75 +
        1.5 * (np_percentile (d.map PerfRow.value) 75 -
          np_percentile (d.map PerfRow.value) 25) < r.value))).map PerfRow.teacher

/-- Restricting the tagged concatenation to the first label recovers the first
frame, and to the second label the second frame. -/
lemma filter_tagged_append {df1 df2 : List PerfRow} {label1 label2 : String}
    (hne : label1 ≠ label2) :
    ((df1.map (fun r => (r, label1)) ++ df2.map (fun r => (r, label2))).filter
        (fun x => x.2 == label1) = df1.map (fun r => (r, label1))) ∧
    ((df1.map (fun r => (r, label1)) ++ df2.map (fun r => (r, label2))).filter
        (fun x => x.2 == label2) = df2.map (fun r => (r, label2))) := by
  constructor
  · rw [List.filter_append]
    have h1 : (df1.map (fun r => (r, label1))).filter (fun x => x.2 == label1) =
        df1.map (fun r => (r, label1)) := by
      rw [List.filter_eq_self]
      intro a ha
      rcases List.mem_map.mp ha with ⟨r, _, rfl⟩
      simp
    have h2 : (df2.map (fun r => (r, label2))).filter (fun x => x.2 == label1) = [] := by
      rw [List.filter_eq_nil_iff]
      intro a ha
      rcases List.mem_map.mp ha with ⟨r, _, rfl⟩
      simp [Ne.symm hne]
    rw [h1, h2, List.append_nil]
  · rw [List.filter_append]
    have h1 : (df1.map (fun r => (r, label1))).filter (fun x => x.2 == label2) = [] := by
      rw [List.filter_eq_nil_iff]
      intro a ha
      rcases List.mem_map.mp ha with ⟨r, _, rfl⟩
      simp [hne]
    have h2 : (df2.map (fun r => (r, label2))).filter (fun x => x.2 == label2) =
        df2.map (fun r => (r, label2)) := by
      rw [List.filter_eq_self]
      intro a ha
      rcases List.mem_map.mp ha with ⟨r, _, rfl⟩
      simp
    rw [h1, h2, List.nil_append]

/-- The per-year outlier computation over a cleanly separated tag equals the
claim's per-period computation. -/
lemma outliersForYear_eq_claim {df1 df2 : List PerfRow} {label1 label2 : String}
    (hne : label1 ≠ label2) :
    outliersForYear (df1.map (fun r => (r, label1)) ++ df2.map (fun r => (r, label2)))
        label1 = claimOutliers df1 ∧
    outliersForYear (df1.map (fun r => (r, label1)) ++ df2.map (fun r => (r, label2)))
        label2 = claimOutliers df2 := by
  obtain ⟨hf1, hf2⟩ := @filter_tagged_append df1 df2 label1 label2 hne
  constructor
  · unfold outliersForYear claimOutliers
    rw [hf1, List.map_map, List.filter_map, List.map_map]
    rfl
  · unfold outliersForYear claimOutliers
    rw [hf2, List.map_map, List.filter_map, List.map_map]
    rfl

/-- C4: with distinct period labels and nonempty period frames, the outlier list
of `plot_box_compare` is exactly the first period's IQR outliers followed by the
second period's, with fences computed separately per period. -/
theorem c4_box_outliers (df1 df2 : List PerfRow) (label1 label2 : String)
    (hne : label1 ≠ label2) (h1 : df1 ≠ []) (h2 : df2 ≠ []) :
    plot_box_compare df1 df2 label1 label2 = claimOutliers df1 ++ claimOutliers df2 := by
  obtain ⟨e1, e2⟩ := @outliersForYear_eq_claim df1 df2 label1 label2 hne
  unfold plot_box_compare
  rw [e1, e2]

/-- Witness for C4 at concrete one-point periods with distinct labels. -/
theorem c4_box_outliers_witness :
    plot_box_compare [⟨1, "a"⟩] [⟨2, "b"⟩] "y1" "y2" =
      claimOutliers [⟨1, "a"⟩] ++ claimOutliers [⟨2, "b"⟩] :=
  c4_box_outliers [⟨1, "a"⟩] [⟨2, "b"⟩] "y1" "y2" (by decide) (by decide) (by decide)

/-! ### analytics.py: get_loss_dataframe -/

/-- Lexicographic comparison of character lists, the order Python uses to
compare strings (code-point order). -/
def lexLe : List Char → List Char → Bool
  | [], _ => true
  | _ :: _, [] => false
  | a :: as, b :: bs => if a < b then true else if a = b then lexLe as bs else false

/-- Python string `<=`, used by the date mask over ISO-formatted date strings. -/
def strLe (a b : String) : Bool := lexLe a.data b.data

/-- Python `round` ties-to-even integer rounding. -/
def roundHalfEven (q : ℚ) : ℤ :=
  if q - ⌊q⌋ < 1/2 then ⌊q⌋
  else if 1/2 < q - ⌊q⌋ then ⌊q⌋ + 1
  else if Even ⌊q⌋ then ⌊q⌋ else ⌊q⌋ + 1

/-- Python `round(x, 2)`: round to two decimal places, ties to even. -/
def pyRound2 (x : ℚ) : ℚ := (roundHalfEven (100 * x) : ℚ) / 100

/-- A sort on a Boolean comparison (pandas sorts group keys ascending). -/
def insertSortedBy {α : Type} (le : α → α → Bool) (x : α) : List α → List α
  | [] => [x]
  | y :: l => if le x y then x :: y :: l else y :: insertSortedBy le x l

def sortBy {α : Type} (le : α → α → Bool) : List α → List α
  | [] => []
  | x :: l => insertSortedBy le x (sortBy le l)

/-- One row of the activity frame, restricted to the columns
`get_loss_dataframe` reads. -/
structure ActivityRow where
  start_date : String
  name_normalized : String
  count : ℚ
deriving DecidableEq, Repr

/-- One row of the external per-teacher CSV (groups and losses). -/
structure CsvRow where
  name_normalized : String
  count_of_loss : ℚ
  number_of_students : ℚ
  number_of_group : ℚ
deriving DecidableEq, Repr

/-- One row of the returned analytics frame (`count_of_loss` is dropped by the
source; a missing CSV match leaves NaN in the merged columns, modelled as
`none`). -/
structure StatsRow where
  name_normalized : String
  count : ℚ
  number_of_students : Option ℚ
  number_of_group : Option ℚ
  global_percent_of_loss : Option ℚ
  percent_of_loss_for_one_group : Option ℚ
deriving DecidableEq, Repr

/-- The groupby-sum of the `count` column for one teacher over the rows whose
`start_date` lies in the inclusive interval [start_date, finish_date]. -/
def periodSum (dframe : List ActivityRow) (start_date finish_date name : String) : ℚ :=
  (((dframe.filter (fun r => strLe start_date r.start_date &&
      strLe r.start_date finish_date)).filter
    (fun r => r.name_normalized == name)).map ActivityRow.count).sum

/-- Embedding of `analytics.get_loss_dataframe`: filter the frame to the period
(inclusive string comparison on both ends), group by teacher name (sorted keys,
summed `count`), left-merge the external CSV on `name_normalized` (every match
produces a row; no match leaves NaN columns), and add the two percentage
columns
`global_percent_of_loss = round(count*100/number_of_students, 2)` and
`percent_of_loss_for_one_group = round(global_percent_of_loss/number_of_group, 2)`
(NaN inputs propagate to NaN outputs). -/
def get_loss_dataframe (dframe : List ActivityRow) (start_date finish_date : String)
    (csv : List CsvRow) : List StatsRow :=
  (sortBy strLe (dedupFirst []
      ((dframe.filter (fun r => strLe start_date r.start_date &&
          strLe r.start_date finish_date)).map ActivityRow.name_normalized))).flatMap
    (fun k =>
      match csv.filter (fun m => m.name_normalized == k) with
      | [] =>
        [{ name_normalized := k,
           count := periodSum dframe start_date finish_date k,
           number_of_students := none, number_of_group := none,
           global_percent_of_loss := none, percent_of_loss_for_one_group := none }]
      | ms =>
        ms.map (fun m =>
          { name_normalized := k,
            count := periodSum dframe start_date finish_date k,
            number_of_students := some m.number_of_students,
            number_of_group := some m.number_of_group,
            global_percent_of_loss := some (pyRound2
              (periodSum dframe start_date finish_date k * 100 / m.number_of_students)),
            percent_of_loss_for_one_group := some (pyRound2 (pyRound2
              (periodSum dframe start_date finish_date k * 100 / m.number_of_students) /
                m.number_of_group)) }))

/-- C5: every output row of `get_loss_dataframe` whose merged columns are
non-null takes them from a CSV record of its teacher, its `count` is the
period-filtered groupby sum, `global_percent_of_loss` is
round(100*sum/number_of_students, 2) and `percent_of_loss_for_one_group` is
round(global_percent_of_loss/number_of_group, 2). -/
theorem c5_loss_formulas (dframe : List ActivityRow) (start_date finish_date : String)
    (csv : List CsvRow) :
    ∀ row ∈ get_loss_dataframe dframe start_date finish_date csv,
      ∀ ns ng : ℚ, row.number_of_students = some ns → row.number_of_group = some ng →
        (∃ m ∈ csv, m.name_normalized = row.name_normalized ∧
          ns = m.number_of_students ∧ ng = m.number_of_group) ∧
        row.count = periodSum dframe start_date finish_date row.name_normalized ∧
        row.global_percent_of_loss = some (pyRound2
          (100 * periodSum dframe start_date finish_date row.name_normalized / ns)) ∧
        row.percent_of_loss_for_one_group = some (pyRound2 (pyRound2
          (100 * periodSum dframe start_date finish_date row.name_normalized / ns) / ng)) := by
  intro row hrow ns ng hns hng
  unfold get_loss_dataframe at hrow
  rcases List.mem_flatMap.mp hrow with ⟨k, _, hbranch⟩
  cases hcsv : csv.filter (fun m => m.name_normalized == k) with
  | nil =>
    rw [hcsv] at hbranch
    simp only [List.mem_singleton] at hbranch
    subst hbranch
    cases hns
  | cons m0 ms' =>
    rw [hcsv] at hbranch
    rcases List.mem_map.mp hbranch with ⟨m, hm, hrow_eq⟩
    subst hrow_eq
    have hmcsv : m ∈ csv ∧ (m.name_normalized == k) = true := by
      have : m ∈ csv.filter (fun m => m.name_normalized == k) := by
        rw [hcsv]; exact hm
      exact ⟨(List.mem_filter.mp this).1, (List.mem_filter.mp this).2⟩
    have hname : m.name_normalized = k := by simpa using hmcsv.2
    simp only [Option.some.injEq] at hns hng
    subst hns
    subst hng
    refine ⟨⟨m, hmcsv.1, by simpa using hname, rfl, rfl⟩, rfl, ?_, ?_⟩
    · simp only []
      rw [mul_comm (periodSum dframe start_date finish_date k) 100]
    · simp only []
      rw [mul_comm (periodSum dframe start_date finish_date k) 100]

/-- Concrete data for the C5 witness: one in-period activity row, one
out-of-period row, one CSV record. -/
def dframeC5 : List ActivityRow :=
  [⟨"2022-09-01", "t", 2⟩, ⟨"2023-09-01", "t", 5⟩]

def csvC5 : List CsvRow := [⟨"t", 0, 10, 2⟩]

def rowC5 : StatsRow :=
  { name_normalized := "t",
    count := periodSum dframeC5 "2022-01-01" "2022-12-31" "t",
    number_of_students := some 10,
    number_of_group := some 2,
    global_percent_of_loss := some (pyRound2
      (periodSum dframeC5 "2022-01-01" "2022-12-31" "t" * 100 / 10)),
    percent_of_loss_for_one_group := some (pyRound2 (pyRound2
      (periodSum dframeC5 "2022-01-01" "2022-12-31" "t" * 100 / 10) / 2)) }

/-- Witness for C5 on the concrete frame. -/
theorem c5_loss_formulas_witness :
    rowC5 ∈ get_loss_dataframe dframeC5 "2022-01-01" "2022-12-31" csvC5 ∧
    rowC5.count = periodSum dframeC5 "2022-01-01" "2022-12-31" rowC5.name_normalized ∧
    rowC5.global_percent_of_loss = some (pyRound2
      (100 * periodSum dframeC5 "2022-01-01" "2022-12-31" rowC5.name_normalized / 10)) := by
  have hmem : rowC5 ∈ get_loss_dataframe dframeC5 "2022-01-01" "2022-12-31" csvC5 :=
    List.Mem.head _
  have h := c5_loss_formulas dframeC5 "2022-01-01" "2022-12-31" csvC5 rowC5 hmem 10 2 rfl rfl
  exact ⟨hmem, h.2.1, h.2.2.1⟩

/-! ### DBLostClients.py: unite_tables -/

/-- Membership in `dedupFirst`: a row survives deduplication iff it occurs in
the list and was not already seen. -/
lemma mem_dedupFirst {α : Type} [DecidableEq α] :
    ∀ (l seen : List α) (x : α), x ∈ dedupFirst seen l ↔ (x ∈ l ∧ x ∉ seen) := by
  intro l
  induction l with
  | nil => intro seen x; simp [dedupFirst]
  | cons a t ih =>
    intro seen x
    unfold dedupFirst
    by_cases ha : a ∈ seen
    · rw [if_pos ha, ih]
      constructor
      · rintro ⟨hx, hns⟩
        exact ⟨List.mem_cons_of_mem a hx, hns⟩
      · rintro ⟨hx, hns⟩
        rcases List.mem_cons.mp hx with rfl | hx
        · exact absurd ha hns
        · exact ⟨hx, hns⟩
    · rw [if_neg ha]
      constructor
      · intro hx
        rcases List.mem_cons.mp hx with rfl | hx
        · exact ⟨List.mem_cons_self _ _, ha⟩
        · rcases (ih (a :: seen) x).mp hx with ⟨h1, h2⟩
          exact ⟨List.mem_cons_of_mem a h1,
            fun hs => h2 (List.mem_cons_of_mem a hs)⟩
      · rintro ⟨hx, hns⟩
        rcases List.mem_cons.mp hx with rfl | hx
        · exact List.mem_cons_self x _
        · by_cases hxa : x = a
          · subst hxa; exact List.mem_cons_self x _
          · exact List.mem_cons_of_mem a
              ((ih (a :: seen) x).mpr ⟨hx, fun hs => by
                rcases List.mem_cons.mp hs with h | h
                · exact hxa h
                · exact hns h⟩)

/-- The left-merge of one main row against the unique teacher records: every
matching record produces an output row; no match leaves a NaN teacher. -/
def mergeTeacher {α : Type} (teachers_unique : List (Option String × Option String))
    (r : Option String × α) : List (Option String × α × Option String) :=
  match teachers_unique.filter (fun t => t.1 == r.1) with
  | [] => [(r.1, r.2, none)]
  | ms => ms.map (fun t => (r.1, r.2, t.2))

/-- The manual-fix pass of `unite_tables`: when the row's group name is a key of
`missing_teachers`, the teacher value is overwritten with the dictionary value
(NaN group names match no dictionary key). -/
def applyMissing {α : Type} (missing : List (String × String)) :
    Option String × α × Option String → Option String × α × Option String
  | (some g, p, tch) =>
    match missing.find? (fun kv => kv.1 == g) with
    | some kv => (some g, p, some kv.2)
    | none => (some g, p, tch)
  | (none, p, tch) => (none, p, tch)

/-- Embedding of `DBLostClients.unite_tables`: deduplicate the (group, teacher)
records, left-merge them onto the main frame by group name, apply the manual
fixes, and drop the rows whose teacher is NaN. -/
def unite_tables {α : Type} (df_main : List (Option String × α))
    (df_teachers : List (Option String × Option String))
    (missing_teachers : List (String × String)) :
    List (Option String × α × Option String) :=
  ((df_main.flatMap (mergeTeacher (dedupFirst [] df_teachers))).map
      (applyMissing missing_teachers)).filter (fun mrow => mrow.2.2.isSome)

lemma mergeTeacher_mem_shape {α : Type} {tu : List (Option String × Option String)}
    {r : Option String × α} {x : Option String × α × Option String}
    (hx : x ∈ mergeTeacher tu r) :
    x.1 = r.1 ∧ x.2.1 = r.2 ∧
      (x.2.2 = none ∨ ∃ t ∈ tu, t.1 = r.1 ∧ x.2.2 = t.2) := by
  unfold mergeTeacher at hx
  cases hf : tu.filter (fun t => t.1 == r.1) with
  | nil =>
    rw [hf] at hx
    simp only [List.mem_singleton] at hx
    subst hx
    exact ⟨rfl, rfl, Or.inl rfl⟩
  | cons m0 ms =>
    rw [hf] at hx
    rcases List.mem_map.mp hx with ⟨t, ht, rfl⟩
    have htf : t ∈ tu.filter (fun t => t.1 == r.1) := by rw [hf]; exact ht
    refine ⟨rfl, rfl, Or.inr ⟨t, (List.mem_filter.mp htf).1, ?_, rfl⟩⟩
    have := (List.mem_filter.mp htf).2
    simpa using this

lemma mergeTeacher_nonempty {α : Type} (tu : List (Option String × Option String))
    (r : Option String × α) :
    ∃ x ∈ mergeTeacher tu r, x.1 = r.1 ∧ x.2.1 = r.2 := by
  unfold mergeTeacher
  cases hf : tu.filter (fun t => t.1 == r.1) with
  | nil => exact ⟨(r.1, r.2, none), List.mem_singleton_self _, rfl, rfl⟩
  | cons m0 ms =>
    exact ⟨(r.1, r.2, m0.2), List.mem_map.mpr ⟨m0, List.mem_cons_self _ _, rfl⟩, rfl, rfl⟩

lemma mem_mergeTeacher_of_match {α : Type} {tu : List (Option String × Option String)}
    {r : Option String × α} {t : Option String × Option String}
    (ht : t ∈ tu) (heq : t.1 = r.1) : (r.1, r.2, t.2) ∈ mergeTeacher tu r := by
  unfold mergeTeacher
  have htf : t ∈ tu.filter (fun t => t.1 == r.1) :=
    List.mem_filter.mpr ⟨ht, by simp [heq]⟩
  cases hf : tu.filter (fun t => t.1 == r.1) with
  | nil => rw [hf] at htf; cases htf
  | cons m0 ms =>
    rw [hf] at htf
    exact List.mem_map.mpr ⟨t, htf, rfl⟩

lemma applyMissing_fields {α : Type} (missing : List (String × String))
    (g? : Option String) (p : α) (tch : Option String) :
    (applyMissing missing (g?, p, tch)).1 = g? ∧
    (applyMissing missing (g?, p, tch)).2.1 = p := by
  cases g? with
  | none => exact ⟨rfl, rfl⟩
  | some g =>
    simp only [applyMissing]
    cases hf : missing.find? (fun kv => kv.1 == g) with
    | none => exact ⟨rfl, rfl⟩
    | some kv => exact ⟨rfl, rfl⟩

lemma applyMissing_cases {α : Type} (missing : List (String × String))
    (g? : Option String) (p : α) (tch : Option String) :
    (∃ g kv, g? = some g ∧ missing.find? (fun kv => kv.1 == g) = some kv ∧
      applyMissing missing (g?, p, tch) = (g?, p, some kv.2)) ∨
    ((∀ g, g? = some g → missing.find? (fun kv => kv.1 == g) = none) ∧
      applyMissing missing (g?, p, tch) = (g?, p, tch)) := by
  cases g? with
  | none => exact Or.inr ⟨(fun g hg => by cases hg), rfl⟩
  | some g =>
    simp only [applyMissing]
    cases hf : missing.find? (fun kv => kv.1 == g) with
    | none =>
      refine Or.inr ⟨fun g' hg' => ?_, rfl⟩
      injection hg' with h
      subst h
      exact hf
    | some kv => exact Or.inl ⟨g, kv, rfl, hf, rfl⟩

/-- C8 counterexample: a main row whose group matches a teacher record with a
null teacher value (and which is not in the manual-fix dictionary) is dropped,
although the claim says every row matching some teacher record is kept. -/
theorem c8_join_counterexample :
    ¬ ∀ (dfm : List (Option String × ℕ)) (dft : List (Option String × Option String))
        (missing : List (String × String)),
        ∀ r ∈ dfm,
          ((∃ t ∈ dft, t.1 = r.1) ∨ (∃ kv ∈ missing, some kv.1 = r.1)) →
          ∃ out ∈ unite_tables dfm dft missing, out.1 = r.1 ∧ out.2.1 = r.2 := by
  intro hclaim
  have h := hclaim [(some "g", 0)] [(some "g", none)] [] (some "g", 0)
    (List.mem_singleton_self _)
    (Or.inl ⟨(some "g", none), List.mem_singleton_self _, rfl⟩)
  rcases h with ⟨out, hout, _⟩
  have hempty : unite_tables [((some "g" : Option String), (0 : ℕ))]
      [((some "g" : Option String), (none : Option String))]
      ([] : List (String × String)) = [] := by decide
  rw [hempty] at hout
  cases hout

/-- C8 amended: every result row of `unite_tables` has a non-null teacher and
consists of an original main-row's values with a teacher column added; a main
row contributes to the result iff its group name is a key of the manual-fix
dictionary, or else some teacher record with the same group key has a non-null
teacher — in particular a row all of whose matching records carry a null
teacher is dropped as well. -/
theorem c8_join_amended {α : Type} (dfm : List (Option String × α))
    (dft : List (Option String × Option String)) (missing : List (String × String)) :
    (∀ out ∈ unite_tables dfm dft missing,
      out.2.2 ≠ none ∧ ∃ r ∈ dfm, out.1 = r.1 ∧ out.2.1 = r.2) ∧
    (∀ r ∈ dfm,
      ((∃ out ∈ unite_tables dfm dft missing, out.1 = r.1 ∧ out.2.1 = r.2) ↔
        ((∃ g, r.1 = some g ∧ (missing.find? (fun kv => kv.1 == g)).isSome = true) ∨
         ((∀ g, r.1 = some g → missing.find? (fun kv => kv.1 == g) = none) ∧
          ∃ t ∈ dft, t.1 = r.1 ∧ t.2 ≠ none)))) := by
  constructor
  · intro out hout
    rcases List.mem_filter.mp hout with ⟨hmem, hpred⟩
    rcases List.mem_map.mp hmem with ⟨mrow, hmrow, rfl⟩
    rcases List.mem_flatMap.mp hmrow with ⟨r, hr, hmr⟩
    obtain ⟨g?, p, tch⟩ := mrow
    obtain ⟨h1, h2, _⟩ := mergeTeacher_mem_shape hmr
    obtain ⟨f1, f2⟩ := applyMissing_fields missing g? p tch
    exact ⟨Option.ne_none_iff_isSome.mpr hpred, r, hr,
      by rw [f1]; exact h1, by rw [f2]; exact h2⟩
  · intro r hr
    constructor
    · rintro ⟨out, hout, hf1, hf2⟩
      rcases List.mem_filter.mp hout with ⟨hmem, hpred⟩
      rcases List.mem_map.mp hmem with ⟨mrow, hmrow, rfl⟩
      rcases List.mem_flatMap.mp hmrow with ⟨r', hr', hmr⟩
      obtain ⟨g?, p, tch⟩ := mrow
      obtain ⟨h1, h2, h3⟩ := mergeTeacher_mem_shape hmr
      obtain ⟨af1, af2⟩ := applyMissing_fields missing g? p tch
      have hgr : g? = r.1 := by rw [← af1]; exact hf1
      rcases applyMissing_cases missing g? p tch with
        ⟨g, kv, hg, hfind, happ⟩ | ⟨hnone, happ⟩
      · exact Or.inl ⟨g, by rw [← hgr]; exact hg, by rw [hfind]; rfl⟩
      · rw [happ] at hpred
        have htne : tch ≠ none := by
          intro hnil
          rw [hnil] at hpred
          cases hpred
        rcases h3 with hnil | ⟨t, htu, ht1, ht2⟩
        · exact absurd hnil htne
        · refine Or.inr ⟨fun g hg => hnone g (by rw [hgr]; exact hg), t,
            (mem_dedupFirst dft [] t).mp htu |>.1, ?_, ?_⟩
          · rw [ht1, ← h1, hgr]
          · rw [← ht2]; exact htne
    · rintro (⟨g, hg, hfind⟩ | ⟨hnone, t, ht, hteq, htne⟩)
      · obtain ⟨kv, hkv⟩ := Option.isSome_iff_exists.mp hfind
        obtain ⟨x, hx, hx1, hx2⟩ := mergeTeacher_nonempty (dedupFirst [] dft) r
        obtain ⟨xg, xp, xt⟩ := x
        obtain rfl : xg = some g := hx1.trans hg
        have happ : applyMissing missing (some g, xp, xt) = (some g, xp, some kv.2) := by
          simp only [applyMissing, hkv]
        refine ⟨applyMissing missing (some g, xp, xt),
          List.mem_filter.mpr ⟨List.mem_map.mpr ⟨(some g, xp, xt),
            List.mem_flatMap.mpr ⟨r, hr, hx⟩, rfl⟩, by rw [happ]; rfl⟩, ?_, ?_⟩
        · rw [happ, ← hx1]
        · rw [happ]; exact hx2
      · have htu : t ∈ dedupFirst [] dft := (mem_dedupFirst dft [] t).mpr ⟨ht, by simp⟩
        have hx := mem_mergeTeacher_of_match htu hteq
        have happ : applyMissing missing (r.1, r.2, t.2) = (r.1, r.2, t.2) := by
          rcases applyMissing_cases missing r.1 r.2 t.2 with
            ⟨g, kv, hg, hfind', _⟩ | ⟨_, heq⟩
          · rw [hnone g hg] at hfind'
            cases hfind'
          · exact heq
        refine ⟨(r.1, r.2, t.2),
          List.mem_filter.mpr ⟨List.mem_map.mpr ⟨(r.1, r.2, t.2),
            List.mem_flatMap.mpr ⟨r, hr, hx⟩, happ⟩, ?_⟩, rfl, rfl⟩
        exact Option.ne_none_iff_isSome.mp htne

/-- Concrete data for the C8 witness. -/
def dfmC8 : List (Option String × ℕ) := [(some "g", 0)]
def dftC8 : List (Option String × Option String) := [(some "g", some "T")]
def outC8 : Option String × ℕ × Option String := (some "g", 0, some "T")

/-- Witness for C8 on a concrete join: the single output row has a non-null
teacher and carries the original main-row values. -/
theorem c8_join_amended_witness :
    outC8 ∈ unite_tables dfmC8 dftC8 [] ∧
    (outC8.2.2 ≠ none ∧ ∃ r ∈ dfmC8, outC8.1 = r.1 ∧ outC8.2.1 = r.2) :=
  ⟨by decide, (c8_join_amended dfmC8 dftC8 []).1 outC8 (by decide)⟩

/-! ### data_io.py: the CSV round trip of save_data and load_data -/

/-- `csv.QUOTE_MINIMAL` of `to_csv` (a cell is `Option String`: `none` is NaN,
serialized as the empty field): a field is quoted iff it contains the
delimiter, the quote character or a line break. -/
def needsQuote (s : List Char) : Bool :=
  s.any (fun c => c == ',' || c == '"' || c == '\n' || c == '\r')

/-- Double every quote character inside a quoted field. -/
def escapeQuotes : List Char → List Char
  | [] => []
  | c :: t => if c = '"' then '"' :: '"' :: escapeQuotes t else c :: escapeQuotes t

/-- Serialize one cell: NaN/empty as the empty field, special fields quoted. -/
def renderCell : Option String → List Char
  | none => []
  | some s => if needsQuote s.data then '"' :: (escapeQuotes s.data ++ ['"']) else s.data

/-- Join the serialized cells of one record with the comma delimiter. -/
def joinComma : List (List Char) → List Char
  | [] => []
  | [c] => c
  | c :: cs => c ++ ',' :: joinComma cs

def renderRow (row : List (Option String)) : List Char :=
  joinComma (row.map renderCell)

/-- A DataFrame as seen by the CSV writer: named columns and cell rows. -/
structure Frame where
  header : List String
  rows : List (List (Option String))

/-- Embedding of `to_csv(index=False)`: the header line followed by one line per
row, each line terminated by a newline. -/
def toCsv (header : List String) (rows : List (List (Option String))) : List Char :=
  renderRow (header.map some) ++ '\n' :: rows.flatMap (fun r => renderRow r ++ ['\n'])

/-- Embedding of `data_io.save_data`: the file contents written for the frame. -/
def save_data (df : Frame) : List Char := toCsv df.header df.rows

/-- The record splitter of the CSV reader: a quote toggles the in-quotes state,
an unquoted newline ends the current record. -/
def splitRecs : List Char → Bool → List Char → List (List Char)
  | [], _, cur => [cur.reverse]
  | c :: rest, inQ, cur =>
    if c = '"' then splitRecs rest (!inQ) (c :: cur)
    else if c = '\n' ∧ inQ = false then cur.reverse :: splitRecs rest false []
    else splitRecs rest inQ (c :: cur)

/-- The non-blank records of the file: `read_csv` has `skip_blank_lines=True`,
so fully empty lines produce no row (and the trailing newline none either). -/
def read_csv_records (file : List Char) : List (List Char) :=
  (splitRecs file false []).filter (fun q => q ≠ [])

/-- The number of data rows `read_csv` yields: all non-blank records except the
header line. -/
def read_csv_rowcount (file : List Char) : ℕ := (read_csv_records file).length - 1

/-- The quote-state scanner: final in-quotes state of a chunk, or `none` when an
unquoted newline occurs inside it. -/
def scan : List Char → Bool → Option Bool
  | [], b => some b
  | c :: rest, b =>
    if c = '"' then scan rest (!b)
    else if c = '\n' ∧ b = false then none
    else scan rest b

lemma scan_append (s t : List Char) (b : Bool) :
    scan (s ++ t) b = (scan s b).bind (fun b' => scan t b') := by
  induction s generalizing b with
  | nil => simp [scan]
  | cons c s ih =>
    by_cases hc : c = '"'
    · subst hc
      simp only [List.cons_append, scan, if_pos rfl]
      exact ih (!b)
    · by_cases hn : c = '\n' ∧ b = false
      · simp [scan, hc, hn]
      · simp only [List.cons_append, scan, if_neg hc, if_neg hn]
        exact ih b

lemma scan_escapeQuotes (s : List Char) : scan (escapeQuotes s) true = some true := by
  induction s with
  | nil => rfl
  | cons c t ih =>
    by_cases hc : c = '"'
    · subst hc
      simp [escapeQuotes, scan, ih]
    · simp [escapeQuotes, scan, hc, ih]

lemma scan_safe {s : List Char} (h : needsQuote s = false) : scan s false = some false := by
  induction s with
  | nil => rfl
  | cons c t ih =>
    have h' := h
    unfold needsQuote at h'
    simp only [List.any_cons, Bool.or_eq_false_iff, beq_eq_false_iff_ne] at h'
    have hq : ¬ c = '"' := by tauto
    have hn : ¬ c = '\n' := by tauto
    simp only [scan, if_neg hq]
    rw [if_neg (by simp [hn])]
    exact ih (by tauto)

lemma scan_renderCell (c : Option String) : scan (renderCell c) false = some false := by
  cases c with
  | none => rfl
  | some s =>
    simp only [renderCell]
    by_cases hq : needsQuote s.data = true
    · rw [if_pos hq]
      simp only [scan, if_pos rfl, Bool.not_false]
      rw [scan_append, scan_escapeQuotes]
      rfl
    · rw [if_neg hq]
      exact scan_safe (by simpa using hq)

lemma scan_joinComma : ∀ cells : List (List Char),
    (∀ x ∈ cells, scan x false = some false) →
    scan (joinComma cells) false = some false := by
  intro cells
  induction cells with
  | nil => intro _; rfl
  | cons c cs ih =>
    intro h
    cases cs with
    | nil => exact h c (List.mem_singleton_self c)
    | cons c2 cs2 =>
      rw [show joinComma (c :: c2 :: cs2) = c ++ ',' :: joinComma (c2 :: cs2) from rfl]
      rw [scan_append, h c (List.mem_cons_self c _)]
      show scan (',' :: joinComma (c2 :: cs2)) false = some false
      rw [show scan (',' :: joinComma (c2 :: cs2)) false =
        scan (joinComma (c2 :: cs2)) false from by simp [scan]]
      exact ih (fun x hx => h x (List.mem_cons_of_mem c hx))

lemma scan_renderRow (row : List (Option String)) :
    scan (renderRow row) false = some false := by
  unfold renderRow
  apply scan_joinComma
  intro x hx
  rcases List.mem_map.mp hx with ⟨cell, _, rfl⟩
  exact scan_renderCell cell

/-- Splitting a file that starts with a record-neutral chunk just accumulates
that chunk into the current record. -/
lemma splitRecs_neutral : ∀ (s : List Char) (b : Bool), scan s b = some false →
    ∀ (t cur : List Char), splitRecs (s ++ t) b cur = splitRecs t false (s.reverse ++ cur) := by
  intro s
  induction s with
  | nil =>
    intro b hb t cur
    have hbf : b = false := by simpa [scan] using hb
    subst hbf
    simp
  | cons c s ih =>
    intro b hb t cur
    by_cases hc : c = '"'
    · subst hc
      have hb' : scan s (!b) = some false := by simpa [scan] using hb
      show splitRecs ('"' :: (s ++ t)) b cur = _
      rw [show splitRecs ('"' :: (s ++ t)) b cur =
        splitRecs (s ++ t) (!b) ('"' :: cur) from by simp [splitRecs]]
      rw [ih (!b) hb' t ('"' :: cur)]
      congr 1
      simp
    · by_cases hn : c = '\n' ∧ b = false
      · exfalso
        have : scan (c :: s) b = none := by simp [scan, hc, hn]
        rw [this] at hb
        cases hb
      · have hb' : scan s b = some false := by
          have : scan (c :: s) b = scan s b := by simp [scan, hc, hn]
          rw [this] at hb
          exact hb
        show splitRecs (c :: (s ++ t)) b cur = _
        rw [show splitRecs (c :: (s ++ t)) b cur =
          splitRecs (s ++ t) b (c :: cur) from by simp [splitRecs, hc, hn]]
        rw [ih b hb' t (c :: cur)]
        congr 1
        simp

lemma splitRecs_newline (t cur : List Char) :
    splitRecs ('\n' :: t) false cur = cur.reverse :: splitRecs t false [] := by
  simp [splitRecs]

/-- Splitting the serialized body yields one record per row plus the empty
record left by the final newline. -/
lemma splitRecs_body : ∀ rows : List (List (Option String)),
    splitRecs (rows.flatMap (fun r => renderRow r ++ ['\n'])) false [] =
      rows.map renderRow ++ [[]] := by
  intro rows
  induction rows with
  | nil => rfl
  | cons r rs ih =>
    show splitRecs ((renderRow r ++ ['\n']) ++ rs.flatMap (fun r => renderRow r ++ ['\n']))
        false [] = _
    rw [List.append_assoc, List.singleton_append]
    rw [splitRecs_neutral (renderRow r) false (scan_renderRow r)]
    rw [splitRecs_newline]
    simp [ih]

/-- C6 counterexample: a single-column frame with one all-NaN row serializes to
a blank line, which `read_csv` skips, so the round trip loses the row. -/
theorem c6_roundtrip_counterexample :
    ¬ ∀ df : Frame, read_csv_rowcount (save_data df) = df.rows.length := by
  intro h
  exact absurd (h ⟨["a"], [[none]]⟩) (by decide)

/-- C6 amended: for a frame whose header line is non-blank, the CSV round trip
preserves exactly the rows whose serialized form is non-blank (duplicates
included); when every row serializes non-blank — in particular whenever the
frame has at least two columns, or no all-null single-column rows — the row
count is preserved exactly. -/
theorem c6_roundtrip_amended (df : Frame)
    (hheader : renderRow (df.header.map some) ≠ []) :
    read_csv_rowcount (save_data df) =
      (df.rows.filter (fun r => decide (renderRow r ≠ []))).length ∧
    ((∀ r ∈ df.rows, renderRow r ≠ []) →
      read_csv_rowcount (save_data df) = df.rows.length) := by
  have hsplit : splitRecs (save_data df) false [] =
      renderRow (df.header.map some) :: (df.rows.map renderRow ++ [[]]) := by
    unfold save_data toCsv
    rw [show renderRow (df.header.map some) ++
        '\n' :: df.rows.flatMap (fun r => renderRow r ++ ['\n']) =
      renderRow (df.header.map some) ++
        ('\n' :: df.rows.flatMap (fun r => renderRow r ++ ['\n'])) from rfl]
    rw [splitRecs_neutral (renderRow (df.header.map some)) false
      (scan_renderRow (df.header.map some))]
    rw [splitRecs_newline]
    rw [splitRecs_body]
    simp
  have hcount : read_csv_rowcount (save_data df) =
      (df.rows.filter (fun r => decide (renderRow r ≠ []))).length := by
    unfold read_csv_rowcount read_csv_records
    rw [hsplit]
    rw [List.filter_cons]
    rw [if_pos (by simpa using hheader)]
    rw [List.filter_append]
    rw [show List.filter (fun q => decide (q ≠ [])) [[]] = ([] : List (List Char)) from rfl]
    rw [List.append_nil]
    rw [List.filter_map (p := fun q => decide (q ≠ [])) renderRow df.rows]
    have hfun : List.filter ((fun q => decide (q ≠ [])) ∘ renderRow) df.rows =
        List.filter (fun r => decide (renderRow r ≠ [])) df.rows := rfl
    rw [hfun]
    simp
  refine ⟨hcount, fun hall => ?_⟩
  rw [hcount]
  congr 1
  rw [List.filter_eq_self]
  intro r hr
  simpa using hall r hr

/-- Witness for C6 on a two-row frame with duplicate rows: both rows survive. -/
theorem c6_roundtrip_witness :
    renderRow ((["a"] : List String).map some) ≠ [] ∧
    read_csv_rowcount (save_data ⟨["a"], [[some "x"], [some "x"]]⟩) = 2 := by
  constructor
  · decide
  · exact (c6_roundtrip_amended ⟨["a"], [[some "x"], [some "x"]]⟩ (by decide)).2 (by decide)

end ETL
